import Mathlib

/-!
Verification development for the kodex scan-and-generate pipeline.

The definitions below are a shallow embedding of the TypeScript sources:

* `packages/shared/src/index.ts` — the data model (`Route`, `Component`,
  `ExtractedString`, `DetectedFeature`, `KnowledgeItem`, ...);
* `packages/cli/src/generator/index.ts` — `generateDocs`, `getTopicsFromFeatures`,
  `generateDoc` (the network call itself is abstracted as a function parameter
  `gen : DetectedFeature → Except Unit GenResult`, and JSON parsing as
  `parse : String → Option JsonDoc`, since both are external collaborators);
* `packages/cli/src/scanner/features.ts` — the pattern catalog and
  `detectFeatures` (the JS `RegExp` engine that collects the raw evidence
  records for one catalog entry is abstracted as a parameter
  `collect : FeaturePattern → List Evidence`);
* `packages/cli/src/scanner/index.ts` — the `scanCodebase` per-file loop,
  feature merging and `buildPages`;
* `packages/cli/src/scanner/routes.ts` — `extractNextAppRoute` and
  `extractDynamicParams`, with the concrete JS regex operations implemented
  character by character;
* `packages/cli/src/scanner/strings.ts` — `isUserFacing`.

JS numbers carrying confidences are modelled as rationals, JS `Array` as
`List`, absent optional fields as `Option`, and thrown exceptions as
`Except Unit`.  JS falsiness of the empty string (`x || d`) is mirrored
explicitly wherever the source relies on `||`.
-/

namespace Kodex

/-- Status of a knowledge item (shared/src/index.ts, `KnowledgeItemStatus`). -/
inductive KStatus where
  | draft
  | reviewed
  | approved
  | pinnedStatus
deriving Repr, DecidableEq

/-- One evidence record of a detected feature (shared/src/index.ts,
`DetectedFeature.evidence` element type). -/
structure Evidence where
  pattern : String
  sourceFile : String
  line : Nat
deriving Repr, DecidableEq

/-- A detected feature pattern (shared/src/index.ts, `DetectedFeature`). -/
structure DetectedFeature where
  id : String
  confidence : ℚ
  evidence : List Evidence
deriving Repr, DecidableEq

/-- A route discovered in the codebase (shared/src/index.ts, `Route`). -/
structure Route where
  path : String
  sourceFile : String
  component : Option String := none
  line : Option Nat := none
  params : List String := []
deriving Repr, DecidableEq

/-- A component discovered in the codebase (shared/src/index.ts, `Component`). -/
structure Component where
  name : String
  sourceFile : String
  line : Nat
  exported : Bool
  propsType : Option String := none
  children : List String := []
deriving Repr, DecidableEq

/-- A user-facing string extracted from code (shared/src/index.ts,
`ExtractedString`); the `type` field is collapsed to its string tag. -/
structure ExtractedString where
  value : String
  sourceFile : String
  line : Nat
  type : String
  component : Option String := none
deriving Repr, DecidableEq

/-- A page: route plus associated components and strings (shared/src/index.ts,
`Page`). -/
structure Page where
  path : String
  components : List String
  sourceFiles : List String
  strings : List ExtractedString
  features : List String
deriving Repr, DecidableEq

/-- A knowledge base item (shared/src/index.ts, `KnowledgeItem`); the optional
audit fields `lastEditedAt`/`lastEditedBy` are omitted because no claimed code
path reads or writes them. -/
structure KnowledgeItem where
  id : String
  topic : String
  title : String
  pages : List String
  content : String
  sourceFiles : List String
  codeVersion : String
  generatedAt : String
  status : KStatus
  confidence : ℚ
  humanEdited : Bool
  pinned : Bool
deriving Repr, DecidableEq

/-- The title/pages/content triple returned by `generateDoc`
(generator/index.ts, return type of `generateDoc`). -/
structure GenResult where
  title : String
  pages : List String
  content : String
deriving Repr, DecidableEq

/-- Options of `generateDocs` (generator/index.ts, `GenerateOptions`). -/
structure GenerateOptions where
  changedOnly : Bool := false
  dryRun : Bool := false
deriving Repr, DecidableEq

/-- Mutable state of the `generateDocs` loop: the `items` array and the three
counters (generator/index.ts, lines 43-47; the token estimate is omitted
because it feeds no decision and no claim mentions it). -/
structure GenState where
  items : List KnowledgeItem
  generated : Nat
  updated : Nat
  skipped : Nat
deriving Repr, DecidableEq

/-- Result of `generateDocs` (generator/index.ts, `GenerateResult`, minus the
token estimate). -/
structure GenerateResultR where
  items : List KnowledgeItem
  generated : Nat
  updated : Nat
  skipped : Nat
deriving Repr, DecidableEq

/-- Split a character list at every occurrence of the separator character, the
JS `String.prototype.split` with a one-character separator (an empty input
yields one empty field, as in JS). -/
def splitOnChar (sep : Char) : List Char → List (List Char)
  | [] => [[]]
  | x :: rest =>
    let r := splitOnChar sep rest
    if x == sep then [] :: r
    else
      match r with
      | h :: t => (x :: h) :: t
      | [] => [[x]]

/-- JS `s.split(sep)` for a one-character separator, on strings. -/
def jsSplit (sep : Char) (s : String) : List String :=
  (splitOnChar sep s.toList).map String.mk

/-- JS global regex replace of one character by another (the source only ever
replaces the single-character patterns `.` and `-`). -/
def replaceAllChar (s : String) (a b : Char) : String :=
  String.mk (s.toList.map fun c => if c == a then b else c)

/-- The `existingByTopic` map of generator/index.ts lines 53-56: a JS `Map`
filled by one `set` per item in order, so the last item with a given topic
wins; `get` returns `undefined` (here `none`) for absent topics. -/
def existingByTopic : List KnowledgeItem → String → Option KnowledgeItem
  | [], _ => none
  | it :: rest, t =>
    match existingByTopic rest t with
    | some x => some x
    | none => if it.topic == t then some it else none

/-- Embedding of `getTopicsFromFeatures` (generator/index.ts, lines 169-180): keep the
features whose category — the text before the first `.` of the id — is in the
configured topic list. -/
def getTopicsFromFeatures (features : List DetectedFeature)
    (configTopics : List String) : List DetectedFeature :=
  features.filter fun f => configTopics.contains ((jsSplit '.' f.id).headD "")

/-- The `hasChanges` test of generator/index.ts lines 77-79: some evidence
source file is not in the existing item's `sourceFiles` set. -/
def hasNewSourceFile (topic : DetectedFeature) (existing : KnowledgeItem) : Bool :=
  (topic.evidence.map (·.sourceFile)).any fun f => !(existing.sourceFiles.contains f)

/-- The knowledge item built at generator/index.ts lines 95-108.  The JS
`existing?.id || fresh` falls back to the fresh id both when there is no
existing item and when the existing id is the empty string (falsy), and
`existing?.humanEdited || false` keeps the existing flag; both are mirrored
exactly.  `nowIso` stands for `new Date().toISOString()` and `nowMs` for the
`Date.now()` used in the fresh id. -/
def mkItem (existing : Option KnowledgeItem) (topic : DetectedFeature)
    (result : GenResult) (scannedAt nowIso nowMs : String) : KnowledgeItem :=
  { id :=
      match existing with
      | some e =>
        if e.id == "" then "kb-" ++ replaceAllChar topic.id '.' '-' ++ "-" ++ nowMs else e.id
      | none => "kb-" ++ replaceAllChar topic.id '.' '-' ++ "-" ++ nowMs
    topic := topic.id
    title := result.title
    pages := result.pages
    content := result.content
    sourceFiles := topic.evidence.map (·.sourceFile)
    codeVersion := scannedAt
    generatedAt := nowIso
    status := KStatus.draft
    confidence := topic.confidence
    humanEdited :=
      match existing with
      | some e => e.humanEdited
      | none => false
    pinned := false }

/-- JS `Array.prototype.findIndex`, with `-1` rendered as `none`
(generator/index.ts line 112 tests `index !== -1`). -/
def findIndex (p : KnowledgeItem → Bool) : List KnowledgeItem → Option Nat
  | [] => none
  | x :: xs => if p x then some 0 else (findIndex p xs).map (· + 1)

/-- One iteration of the `generateDocs` loop (generator/index.ts lines 65-137)
for a single topic.  `O` is the original `existingKb.items` list that the
`existingByTopic` map was built from; `gen` abstracts the
`generateDoc(model, topic, context, config.name)` call, with `Except.error`
standing for a thrown/rejected generation. -/
def stepTopic (O : List KnowledgeItem) (opts : GenerateOptions)
    (gen : DetectedFeature → Except Unit GenResult)
    (scannedAt nowIso nowMs : String) (st : GenState)
    (topic : DetectedFeature) : GenState :=
  match existingByTopic O topic.id with
  | some e =>
    if e.pinned then { st with skipped := st.skipped + 1 }
    else if opts.changedOnly && !(hasNewSourceFile topic e) then
      { st with skipped := st.skipped + 1 }
    else if opts.dryRun then { st with updated := st.updated + 1 }
    else
      match gen topic with
      | Except.error _ => { st with skipped := st.skipped + 1 }
      | Except.ok r =>
        let item := mkItem (some e) topic r scannedAt nowIso nowMs
        match findIndex (fun i => i.id == e.id) st.items with
        | some idx => { st with items := st.items.set idx item, updated := st.updated + 1 }
        | none => st
  | none =>
    if opts.dryRun then { st with generated := st.generated + 1 }
    else
      match gen topic with
      | Except.error _ => { st with skipped := st.skipped + 1 }
      | Except.ok r =>
        { st with
          items := st.items ++ [mkItem none topic r scannedAt nowIso nowMs]
          generated := st.generated + 1 }

/-- Embedding of `generateDocs` (generator/index.ts lines 37-146): filter the detected
features through the topic allow-list, then run the per-topic loop starting
from a copy of the existing items with zeroed counters. -/
def generateDocsR (opts : GenerateOptions)
    (gen : DetectedFeature → Except Unit GenResult)
    (scannedAt nowIso nowMs : String)
    (features : List DetectedFeature) (configTopics : List String)
    (existingItems : List KnowledgeItem) : GenerateResultR :=
  let topicsToGenerate := getTopicsFromFeatures features configTopics
  let final := topicsToGenerate.foldl
    (stepTopic existingItems opts gen scannedAt nowIso nowMs)
    { items := existingItems, generated := 0, updated := 0, skipped := 0 }
  { items := final.items
    generated := final.generated
    updated := final.updated
    skipped := final.skipped }

/-- The classification performed by one loop iteration, read off the branch
conditions of generator/index.ts lines 69-128: a topic is counted skipped iff
its existing item is pinned, or changed-only mode found no new source file, or
the backend call failed. -/
def topicSkipped (O : List KnowledgeItem) (opts : GenerateOptions)
    (gen : DetectedFeature → Except Unit GenResult)
    (topic : DetectedFeature) : Bool :=
  match existingByTopic O topic.id with
  | some e =>
    e.pinned || (opts.changedOnly && !(hasNewSourceFile topic e)) ||
      (match gen topic with
       | Except.error _ => true
       | Except.ok _ => false)
  | none =>
    match gen topic with
    | Except.error _ => true
    | Except.ok _ => false

/-- One entry of the fixed detection catalog (features.ts, `FeaturePattern`);
the regexes are carried as their source strings. -/
structure FeaturePattern where
  id : String
  patterns : List String
  confidence : ℚ
deriving Repr, DecidableEq

/-- The fixed pattern catalog of features.ts lines 19-165 (`FEATURE_PATTERNS`). -/
def FEATURE_PATTERNS : List FeaturePattern := [
  { id := "authentication.login-logout",
    patterns := ["login", "logout", "sign[-_]?in", "sign[-_]?out", "auth"],
    confidence := 9/10 },
  { id := "authentication.password-reset",
    patterns := ["password[-_]?reset", "forgot[-_]?password", "reset[-_]?password"],
    confidence := 95/100 },
  { id := "authentication.signup-registration",
    patterns := ["sign[-_]?up", "register", "create[-_]?account", "registration"],
    confidence := 9/10 },
  { id := "authentication.two-factor-auth",
    patterns := ["2fa", "two[-_]?factor", "mfa", "authenticator", "totp", "otp"],
    confidence := 95/100 },
  { id := "authentication.session-management",
    patterns := ["session", "active[-_]?devices", "logout[-_]?all"],
    confidence := 7/10 },
  { id := "navigation.getting-started",
    patterns := ["onboarding", "welcome", "getting[-_]?started", "tutorial"],
    confidence := 9/10 },
  { id := "navigation.keyboard-shortcuts",
    patterns := ["shortcut", "hotkey", "useHotkeys", "key[-_]?binding"],
    confidence := 95/100 },
  { id := "navigation.search",
    patterns := ["search", "command[-_]?palette", "quick[-_]?actions"],
    confidence := 8/10 },
  { id := "data.import-export",
    patterns := ["import", "export", "download", "csv", "excel"],
    confidence := 8/10 },
  { id := "data.autosave",
    patterns := ["auto[-_]?save", "draft", "unsaved[-_]?changes"],
    confidence := 9/10 },
  { id := "data.filtering-sorting",
    patterns := ["filter", "sort", "order[-_]?by"],
    confidence := 7/10 },
  { id := "settings.profile-management",
    patterns := ["profile", "account[-_]?settings", "update[-_]?profile"],
    confidence := 85/100 },
  { id := "settings.notifications",
    patterns := ["notification", "email[-_]?pref", "push[-_]?notif", "alert[-_]?settings"],
    confidence := 9/10 },
  { id := "settings.theme-appearance",
    patterns := ["theme", "dark[-_]?mode", "appearance", "light[-_]?mode"],
    confidence := 9/10 },
  { id := "settings.language-locale",
    patterns := ["language", "locale", "i18n", "internationalization"],
    confidence := 85/100 },
  { id := "errors.error-boundary",
    patterns := ["error[-_]?boundary", "error[-_]?page", "error[-_]?handler"],
    confidence := 9/10 },
  { id := "errors.connection-issues",
    patterns := ["offline", "network[-_]?error", "connection[-_]?lost", "reconnect"],
    confidence := 9/10 },
  { id := "errors.not-found",
    patterns := ["404", "not[-_]?found", "page[-_]?not[-_]?found"],
    confidence := 95/100 },
  { id := "billing.subscription",
    patterns := ["subscription", "pricing", "plan", "upgrade", "downgrade"],
    confidence := 85/100 },
  { id := "billing.payment-methods",
    patterns := ["payment", "credit[-_]?card", "billing", "stripe"],
    confidence := 9/10 },
  { id := "integrations.api-access",
    patterns := ["api[-_]?key", "api[-_]?token", "access[-_]?token"],
    confidence := 9/10 },
  { id := "integrations.webhooks",
    patterns := ["webhook", "webhook[-_]?config", "webhook[-_]?url"],
    confidence := 95/100 },
  { id := "integrations.sso",
    patterns := ["sso", "saml", "oidc", "single[-_]?sign[-_]?on"],
    confidence := 95/100 },
  { id := "collaboration.inviting-members",
    patterns := ["invite", "add[-_]?member", "team[-_]?invite"],
    confidence := 9/10 },
  { id := "collaboration.sharing",
    patterns := ["share", "share[-_]?link", "public[-_]?link"],
    confidence := 85/100 },
  { id := "collaboration.comments",
    patterns := ["comment", "mention", "thread"],
    confidence := 8/10 }]

/-- The confidence adjustment of features.ts lines 209-211, performed in two
steps exactly as in the source: `+0.05` capped at 1 when the evidence count
reaches 3, then again when it reaches 5. -/
def adjustConfidence (base : ℚ) (n : Nat) : ℚ :=
  let c := base
  let c := if n ≥ 3 then min (c + 5/100) 1 else c
  let c := if n ≥ 5 then min (c + 5/100) 1 else c
  c

/-- Embedding of `detectFeatures` for one file (features.ts lines 170-222).  The inner
double loop of lines 179-204 — every regex of the entry run by the JS engine
over the file path and the file content, producing one evidence record per
match — is abstracted as `collect`, applied once per catalog entry; the
surrounding logic (keep only entries with evidence, adjust confidence from the
full evidence count, cap the emitted list at the 10 earliest records) is the
source's. -/
def detectFeatures (collect : FeaturePattern → List Evidence) : List DetectedFeature :=
  FEATURE_PATTERNS.filterMap fun p =>
    let evidence := collect p
    if evidence.isEmpty then none
    else some
      { id := p.id
        confidence := adjustConfidence p.confidence evidence.length
        evidence := evidence.take 10 }

/-- Merge of one per-file feature into the accumulated map entry
(scanner/index.ts lines 325-327): evidence lists are concatenated and the
confidence becomes the max of the two. -/
def mergeTwo (g f : DetectedFeature) : DetectedFeature :=
  { g with evidence := g.evidence ++ f.evidence, confidence := max g.confidence f.confidence }

/-- One step of the feature-deduplication loop of scanner/index.ts lines
321-331.  The JS `Map` keyed by id holds at most one entry per id, mutated in
place on a hit and extended (insertion order = first-occurrence order) on a
miss; on lists with unique ids the `map` below updates exactly that entry. -/
def insertFeature (acc : List DetectedFeature) (f : DetectedFeature) : List DetectedFeature :=
  if acc.any (fun g => g.id == f.id) then
    acc.map fun g => if g.id == f.id then mergeTwo g f else g
  else acc ++ [f]

/-- The whole feature-deduplication pass of scanner/index.ts lines 320-332. -/
def mergeFeatures (l : List DetectedFeature) : List DetectedFeature :=
  l.foldl insertFeature []

/-- Everything one parsed file contributes to the scan (scanner/index.ts lines
300-314: the four per-file extractor results). -/
structure FileData where
  routes : List Route
  components : List Component
  strings : List ExtractedString
  features : List DetectedFeature
deriving Repr, DecidableEq

/-- Append x to the list unless already present: the JS
`Set` insertion used for a page's source files (scanner/index.ts lines
421-425). -/
def insertUnique (l : List String) (x : String) : List String :=
  if l.contains x then l else l ++ [x]

/-- Embedding of `buildPages` (scanner/index.ts lines 401-442): one page per route, with
the components of the route's file or named by the route, their source files
union'd with the route's own, the global strings filtered to that file set,
and an explicitly empty feature list. -/
def buildPages (routes : List Route) (components : List Component)
    (strings : List ExtractedString) : List Page :=
  routes.map fun route =>
    let pageComponents := (components.filter fun c =>
      c.sourceFile == route.sourceFile ||
        (match route.component with
         | some comp => !comp.isEmpty && c.name == comp
         | none => false)).map (·.name)
    let sourceFiles := pageComponents.foldl (fun acc compName =>
      match components.find? (fun c => c.name == compName) with
      | some c => insertUnique acc c.sourceFile
      | none => acc) [route.sourceFile]
    let pageStrings := strings.filter fun s => sourceFiles.contains s.sourceFile
    { path := route.path
      components := pageComponents
      sourceFiles := sourceFiles
      strings := pageStrings
      features := [] }

/-- The aggregate scan result (shared/src/index.ts, `CodeMap`, minus the
api-endpoint list — always empty in the source — and the wall-clock
metadata). -/
structure CodeMapR where
  routes : List Route
  components : List Component
  pages : List Page
  strings : List ExtractedString
  features : List DetectedFeature
deriving Repr, DecidableEq

/-- The per-file extraction loop of scanner/index.ts lines 291-315.  A file
whose parse or extraction throws is an `Except.error` input; the loop body
contains no try/catch, so the first error propagates and aborts the whole
accumulation, exactly as an uncaught JS exception leaves the `for` loop. -/
def scanFiles : List (Except Unit FileData) →
    Except Unit (List Route × List Component × List ExtractedString × List DetectedFeature)
  | [] => Except.ok ([], [], [], [])
  | f :: rest =>
    match f with
    | Except.error e => Except.error e
    | Except.ok d =>
      match scanFiles rest with
      | Except.error e => Except.error e
      | Except.ok (r, c, s, ft) =>
        Except.ok (d.routes ++ r, d.components ++ c, d.strings ++ s, d.features ++ ft)

/-- Embedding of `scanCodebase` (scanner/index.ts lines 258-350) downstream of file
discovery and framework detection: run the extractors over every file,
assemble pages and deduplicate features.  An exception escaping the per-file
loop escapes `scanCodebase` itself. -/
def scanCodebaseR (files : List (Except Unit FileData)) : Except Unit CodeMapR :=
  match scanFiles files with
  | Except.error e => Except.error e
  | Except.ok (r, c, s, ft) =>
    Except.ok
      { routes := r
        components := c
        pages := buildPages r c s
        strings := s
        features := mergeFeatures ft }

/-- Does the first list start with the second? -/
def startsWithList : List Char → List Char → Bool
  | _, [] => true
  | [], _ :: _ => false
  | c :: cs, p :: ps => c == p && startsWithList cs ps

/-- Substring test used for the `relativePath.includes(..)` checks. -/
def containsSubAux (pat : List Char) : List Char → Bool
  | [] => startsWithList [] pat
  | c :: rest => startsWithList (c :: rest) pat || containsSubAux pat rest

/-- JS `String.prototype.includes`. -/
def containsSub (s pat : String) : Bool :=
  containsSubAux pat.toList s.toList

/-- A character of the JS regex class `\w`: ASCII letter, digit or underscore. -/
def isWordChar (c : Char) : Bool :=
  c.isAlphanum || c == '_'

/-- Longest leading run of `\w` characters and the remainder (the greedy
`[\w]+` of the route regexes, which never needs backtracking because `]` and
`*` are not word characters). -/
def takeWord : List Char → List Char × List Char
  | [] => ([], [])
  | c :: rest =>
    if isWordChar c then
      let (w, r) := takeWord rest
      (c :: w, r)
    else ([], c :: rest)

/-- The lazy body of the capture of `/app(\/.*?)\/page\./`: consume characters
(none of them newlines, as `.` requires) until the literal anchor `/page.`
starts, returning the consumed characters, or fail if the anchor never
comes. -/
def scanLazy : List Char → Option (List Char)
  | [] => none
  | c :: rest =>
    if startsWithList (c :: rest) ['/', 'p', 'a', 'g', 'e', '.'] then some []
    else if c == '\n' then none
    else
      match scanLazy rest with
      | some cs => some (c :: cs)
      | none => none

/-- Attempt the match of `/app(\/.*?)\/page\./` at the current position: the
literal `app`, then the group — a `/` followed by the lazy run — then the
anchor.  Returns the capture group. -/
def tryAppMatch (l : List Char) : Option (List Char) :=
  if startsWithList l ['a', 'p', 'p', '/'] then
    match scanLazy (l.drop 4) with
    | some cs => some ('/' :: cs)
    | none => none
  else none

/-- Leftmost match of `/app(\/.*?)\/page\./` (routes.ts line 79): try every
start position from the left, as the JS engine does. -/
def firstAppCapture : List Char → Option (List Char)
  | [] => none
  | c :: rest =>
    match tryAppMatch (c :: rest) with
    | some cs => some cs
    | none => firstAppCapture rest

/-- Consume the `[^)]+\)` tail of a route-group match: at least one
non-parenthesis character, then the closing parenthesis; returns the
remainder. -/
def takeGroupTail : List Char → Option (List Char)
  | [] => none
  | y :: ys => if y == ')' then some ys else takeGroupTail ys

/-- Full match of `\([^)]+\)` right after the leading `/`: the `+` demands at
least one non-parenthesis character before the `)`. -/
def takeGroup : List Char → Option (List Char)
  | [] => none
  | x :: xs => if x == ')' then none else takeGroupTail xs

/-- The global replacement `path.replace(/\/\([^)]+\)/g, '')` of routes.ts
line 85: drop every route-group segment, scanning left to right and resuming
after each match.  Every recursive call is on a strictly shorter list, so a
fuel of one more than the length is never exhausted; the fuel makes the
recursion structural (hence kernel-evaluable). -/
def removeGroupsF : Nat → List Char → List Char
  | 0, _ => []
  | _ + 1, [] => []
  | fuel + 1, '/' :: '(' :: rest2 =>
    (match takeGroup rest2 with
     | some rest3 => removeGroupsF fuel rest3
     | none => '/' :: removeGroupsF fuel ('(' :: rest2))
  | fuel + 1, c :: rest => c :: removeGroupsF fuel rest

/-- Wrapper running `removeGroupsF` with enough fuel for its input. -/
def removeGroups (l : List Char) : List Char :=
  removeGroupsF (l.length + 1) l

/-- The global replacement `path.replace(/\[\.\.\.([\w]+)\]/g, ':$1*')` of
routes.ts line 88: catch-all segments become `:name*`.  Fueled like
`removeGroupsF`. -/
def replaceCatchAllF : Nat → List Char → List Char
  | 0, _ => []
  | _ + 1, [] => []
  | fuel + 1, '[' :: rest =>
    if startsWithList rest ['.', '.', '.'] then
      match takeWord (rest.drop 3) with
      | ([], _) => '[' :: replaceCatchAllF fuel rest
      | (w, ']' :: rest3) => ':' :: (w ++ '*' :: replaceCatchAllF fuel rest3)
      | (_, _) => '[' :: replaceCatchAllF fuel rest
    else '[' :: replaceCatchAllF fuel rest
  | fuel + 1, c :: rest => c :: replaceCatchAllF fuel rest

/-- Wrapper running `replaceCatchAllF` with enough fuel for its input. -/
def replaceCatchAll (l : List Char) : List Char :=
  replaceCatchAllF (l.length + 1) l

/-- The global replacement `path.replace(/\[([\w]+)\]/g, ':$1')` of routes.ts
line 91: dynamic segments become `:name`.  Fueled like `removeGroupsF`. -/
def replaceDynamicF : Nat → List Char → List Char
  | 0, _ => []
  | _ + 1, [] => []
  | fuel + 1, '[' :: rest =>
    (match takeWord rest with
     | ([], _) => '[' :: replaceDynamicF fuel rest
     | (w, ']' :: rest3) => ':' :: (w ++ replaceDynamicF fuel rest3)
     | (_, _) => '[' :: replaceDynamicF fuel rest)
  | fuel + 1, c :: rest => c :: replaceDynamicF fuel rest

/-- Wrapper running `replaceDynamicF` with enough fuel for its input. -/
def replaceDynamic (l : List Char) : List Char :=
  replaceDynamicF (l.length + 1) l

/-- Embedding of `extractDynamicParams` (routes.ts lines 218-228): every match of
`/[:[\]]([\w]+)/g` — a delimiter character followed by a word run —
contributes its captured name, scanning resuming after each match.  Fueled
like `removeGroupsF`. -/
def dynParamsF : Nat → List Char → List String
  | 0, _ => []
  | _ + 1, [] => []
  | fuel + 1, c :: rest =>
    if c == ':' || c == '[' || c == ']' then
      match takeWord rest with
      | ([], _) => dynParamsF fuel rest
      | (w, rest2) => String.mk w :: dynParamsF fuel rest2
    else dynParamsF fuel rest

/-- String-level wrapper of `dynParamsF` with enough fuel for its input. -/
def extractDynamicParams (path : String) : List String :=
  dynParamsF (path.toList.length + 1) path.toList

/-- Does the first list end with the second? -/
def endsWithList (s pat : List Char) : Bool :=
  startsWithList s.reverse pat.reverse

/-- Does the string end with the given suffix? -/
def endsWithStr (s pat : String) : Bool :=
  endsWithList s.toList pat.toList

/-- The `page.(tsx?|jsx?)$` filename test of routes.ts line 72. -/
def isPageFile (filePath : String) : Bool :=
  endsWithStr filePath "page.tsx" || endsWithStr filePath "page.ts" ||
    endsWithStr filePath "page.jsx" || endsWithStr filePath "page.js"

/-- The partial route produced by the app-router convention: the fields set at
routes.ts lines 93-96. -/
structure NextRoute where
  path : String
  params : List String
deriving Repr, DecidableEq

/-- Embedding of `extractNextAppRoute` (routes.ts lines 70-97): require a page file, take
the first `app(..)/page.` capture, strip route groups, lower catch-all and
dynamic segments, and extract the parameters from the final path.  The two
`|| '/'` fallbacks of the source (on the capture and on the returned path) are
mirrored as emptiness checks. -/
def extractNextAppRoute (filePath : String) : Option NextRoute :=
  if !(isPageFile filePath) then none
  else
    match firstAppCapture filePath.toList with
    | none => none
    | some cap =>
      let path := String.mk cap
      let path := if path == "" then "/" else path
      let path := String.mk (removeGroups path.toList)
      let path := String.mk (replaceCatchAll path.toList)
      let path := String.mk (replaceDynamic path.toList)
      some { path := if path == "" then "/" else path
             params := extractDynamicParams path }

/-- The app-router branch of `extractRoutes` (routes.ts lines 20-26): fires
only under the nextjs framework for files whose relative path contains
`/app/`, and copies the partial route with the file path filled in. -/
def nextAppRoutes (framework : Option String) (relativePath : String) : List Route :=
  if framework == some "nextjs" && containsSub relativePath "/app/" then
    match extractNextAppRoute relativePath with
    | some r => [{ path := r.path, sourceFile := relativePath, params := r.params }]
    | none => []
  else []

/-- The bare-identifier shape `/^[a-z_][a-z0-9_]*$/i` of strings.ts
line 623. -/
def identShape (s : String) : Bool :=
  match s.toList with
  | [] => false
  | c :: rest => (c.isAlpha || c == '_') && rest.all fun d => d.isAlphanum || d == '_'

/-- ASCII upper-casing of a whole string, JS `toUpperCase` on the ASCII
strings this filter sees. -/
def jsToUpper (s : String) : String :=
  String.mk (s.toList.map Char.toUpper)

/-- Does the string start with the given one? -/
def startsWithStr (s pat : String) : Bool :=
  startsWithList s.toList pat.toList

/-- Embedding of `isUserFacing` (strings.ts lines 618-635), the user-facing string filter,
with each rejection test in source order. -/
def isUserFacing (str : String) : Bool :=
  if str.length < 2 then false
  else if identShape str then false
  else if startsWithStr str "/" || startsWithStr str "http" then false
  else if containsSub str "=>" || containsSub str "()" then false
  else if str == jsToUpper str && str.length > 3 then false
  else true

/-- The shape of a parsed backend response as `generateDoc` consumes it
(generator/index.ts lines 268-272): each of the three fields may be absent.
This abstracts `JSON.parse` — a platform collaborator — to the field lookups
the source performs on its result. -/
structure JsonDoc where
  title : Option String
  pages : Option (List String)
  content : Option String
deriving Repr, DecidableEq

/-- The topic display name of generator/index.ts line 236: the last
dot-separated segment of the feature id with every hyphen replaced by a
space (a global regex replace in the source), falling back (JS falsiness) to
the whole id when that segment is empty. -/
def displayName (featureId : String) : String :=
  let seg := (jsSplit '.' featureId).getLastD ""
  let t := replaceAllChar seg '-' ' '
  if t == "" then featureId else t

/-- JS `x || d` for a string-valued field: the default is taken when the field
is absent or the empty string. -/
def jsOrStr (v : Option String) (d : String) : String :=
  match v with
  | some s => if s == "" then d else s
  | none => d

/-- The response handling of `generateDoc` (generator/index.ts lines 266-281):
parse the response text; on failure fall back to the display name, an empty
page list and the raw text; on success take each field with its own `||`
fallback (an empty array is truthy in JS, so `json.pages || []` defaults only
an absent field). -/
def generateDocR (parse : String → Option JsonDoc) (featureId : String)
    (responseText : String) : GenResult :=
  let topicName := displayName featureId
  match parse responseText with
  | some json =>
    { title := jsOrStr json.title topicName
      pages := json.pages.getD []
      content := jsOrStr json.content responseText }
  | none =>
    { title := topicName
      pages := []
      content := responseText }

/-! Concrete inputs used by counterexamples and witnesses. -/

/-- A human-edited, unpinned knowledge item for the notifications topic. -/
def cexItem : KnowledgeItem :=
  { id := "kb-settings-notifications-1", topic := "settings.notifications",
    title := "Old title", pages := ["/settings"], content := "old content",
    sourceFiles := ["a.ts"], codeVersion := "v0", generatedAt := "t0",
    status := KStatus.approved, confidence := 8/10, humanEdited := true,
    pinned := false }

/-- A detected feature for the same topic, with evidence from a new file. -/
def cexFeature : DetectedFeature :=
  { id := "settings.notifications", confidence := 9/10,
    evidence := [{ pattern := "notification", sourceFile := "b.ts", line := 3 }] }

/-- A backend that always succeeds with a fixed document. -/
def cexGen : DetectedFeature → Except Unit GenResult :=
  fun _ => Except.ok { title := "New title", pages := ["/p"], content := "new content" }

/-- The contributions of one successfully parsed file. -/
def okFileData : FileData :=
  { routes := [{ path := "/settings", sourceFile := "app/settings/page.tsx",
                 component := none, line := none, params := [] }]
    components := [{ name := "SettingsPage", sourceFile := "app/settings/page.tsx",
                     line := 5, exported := true, propsType := none, children := [] }]
    strings := [{ value := "Enable 2FA", sourceFile := "app/settings/page.tsx",
                  line := 12, type := "heading", component := none }]
    features := [{ id := "authentication.two-factor-auth", confidence := 95/100,
                   evidence := [{ pattern := "2fa", sourceFile := "app/settings/page.tsx",
                                  line := 12 }] }] }

/-- An existing item whose recorded source files already cover its topic's
evidence. -/
def unchangedItem : KnowledgeItem :=
  { id := "kb-data-autosave-1", topic := "data.autosave", title := "Autosave",
    pages := [], content := "c", sourceFiles := ["c.ts"], codeVersion := "v",
    generatedAt := "t", status := KStatus.draft, confidence := 9/10,
    humanEdited := false, pinned := false }

/-- The detected feature for that topic, all of whose evidence files are
already recorded. -/
def unchangedFeature : DetectedFeature :=
  { id := "data.autosave", confidence := 9/10,
    evidence := [{ pattern := "draft", sourceFile := "c.ts", line := 2 }] }

/-- A collector with one evidence record for the login topic only. -/
def collectW : FeaturePattern → List Evidence :=
  fun q => if q.id == "authentication.login-logout"
    then [{ pattern := "login", sourceFile := "auth.ts", line := 4 }] else []

/-- One per-file occurrence of the login feature with confidence 0.9. -/
def mergeA : DetectedFeature :=
  { id := "authentication.login-logout", confidence := 9/10,
    evidence := [{ pattern := "login", sourceFile := "f1.ts", line := 1 }] }

/-- A second file's occurrence of the same feature, also confidence 0.9. -/
def mergeB : DetectedFeature :=
  { id := "authentication.login-logout", confidence := 9/10,
    evidence := [{ pattern := "auth", sourceFile := "f2.ts", line := 7 }] }

/-- The state shape the generateDocs loop preserves when not in dry-run mode:
the items list is the original list with updated entries substituted in place
(same ids, same length) followed by the freshly created items, whose count is
the `generated` counter. -/
def GoodState (O : List KnowledgeItem) (st : GenState) : Prop :=
  ∃ front tail, st.items = front ++ tail ∧ front.map (·.id) = O.map (·.id) ∧
    tail.length = st.generated

/-- A pinned knowledge item for the billing topic. -/
def pinnedItem : KnowledgeItem :=
  { id := "kb-billing-subscription-1", topic := "billing.subscription",
    title := "Plans", pages := ["/billing"], content := "plans",
    sourceFiles := ["billing.ts"], codeVersion := "v0", generatedAt := "t0",
    status := KStatus.pinnedStatus, confidence := 85/100, humanEdited := true,
    pinned := true }

/-- A detected feature for the pinned topic, with fresh evidence. -/
def pinnedFeature : DetectedFeature :=
  { id := "billing.subscription", confidence := 85/100,
    evidence := [{ pattern := "pricing", sourceFile := "new-pricing.ts", line := 9 }] }

/-! ## C1 — fields of the knowledge item produced on update or create -/

/-- C1 (counterexample): as stated the claim is false.  Running `generateDocs`
over a knowledge base whose only item is human-edited (`humanEdited = true`)
and not pinned, with a successfully generated update for its topic, yields an
updated item whose `humanEdited` flag is `true`, not `false`: line 106 of
generator/index.ts copies the existing flag instead of resetting it. -/
theorem generateDocs_humanEdited_cex :
    ((generateDocsR { changedOnly := false, dryRun := false } cexGen "s0" "now" "99"
        [cexFeature] ["settings"] [cexItem]).items.map (·.humanEdited) = [true]) ∧
    (generateDocsR { changedOnly := false, dryRun := false } cexGen "s0" "now" "99"
        [cexFeature] ["settings"] [cexItem]).updated = 1 := by
  exact ⟨by decide, by decide⟩

/-- C1 (amended): for every topic classified update or create whose backend
generation succeeds, the produced knowledge item has status `draft`,
`humanEdited` equal to the existing item's flag (`false` when the topic is
newly created), `sourceFiles`/`confidence`/`generatedAt`/`content`/`title`
taken entirely from the new generation, and it keeps the original id whenever
an item for the topic existed with a non-empty id; the update branch replaces
exactly that item in place and the create branch appends it. -/
theorem generateDocs_item_fields :
    ∀ (existing : Option KnowledgeItem) (topic : DetectedFeature) (r : GenResult)
      (scannedAt nowIso nowMs : String),
    (mkItem existing topic r scannedAt nowIso nowMs).status = KStatus.draft ∧
    (mkItem existing topic r scannedAt nowIso nowMs).humanEdited =
      (match existing with | some e => e.humanEdited | none => false) ∧
    (mkItem existing topic r scannedAt nowIso nowMs).sourceFiles =
      topic.evidence.map (·.sourceFile) ∧
    (mkItem existing topic r scannedAt nowIso nowMs).confidence = topic.confidence ∧
    (mkItem existing topic r scannedAt nowIso nowMs).generatedAt = nowIso ∧
    (mkItem existing topic r scannedAt nowIso nowMs).content = r.content ∧
    (mkItem existing topic r scannedAt nowIso nowMs).title = r.title ∧
    (∀ e, existing = some e → e.id ≠ "" →
      (mkItem existing topic r scannedAt nowIso nowMs).id = e.id) ∧
    (∀ (O : List KnowledgeItem) (opts : GenerateOptions) gen (st : GenState),
      existingByTopic O topic.id = none → opts.dryRun = false →
      gen topic = Except.ok r →
      stepTopic O opts gen scannedAt nowIso nowMs st topic =
        { st with items := st.items ++ [mkItem none topic r scannedAt nowIso nowMs]
                  generated := st.generated + 1 }) ∧
    (∀ (O : List KnowledgeItem) (opts : GenerateOptions) gen (st : GenState)
      (e : KnowledgeItem) (idx : Nat),
      existingByTopic O topic.id = some e → e.pinned = false →
      (opts.changedOnly && !(hasNewSourceFile topic e)) = false →
      opts.dryRun = false → gen topic = Except.ok r →
      findIndex (fun i => i.id == e.id) st.items = some idx →
      stepTopic O opts gen scannedAt nowIso nowMs st topic =
        { st with items := st.items.set idx (mkItem (some e) topic r scannedAt nowIso nowMs)
                  updated := st.updated + 1 }) := by
  intro existing topic r scannedAt nowIso nowMs
  refine ⟨rfl, ?_, rfl, rfl, rfl, rfl, rfl, ?_, ?_, ?_⟩
  · cases existing <;> rfl
  · intro e he hne
    subst he
    simp only [mkItem]
    rw [if_neg]
    simp [hne]
  · intro O opts gen st hlook hdry hgen
    simp only [stepTopic, hlook, hdry, hgen]
    rfl
  · intro O opts gen st e idx hlook hpin hco hdry hgen hfind
    simp only [stepTopic, hlook, hpin, hco, hdry, hgen, hfind]
    rfl

/-- C1 (witness): the field facts at a concrete update. -/
theorem generateDocs_item_fields_w :
    (mkItem (some cexItem) cexFeature
        { title := "New title", pages := ["/p"], content := "new content" }
        "s0" "now" "99").status = KStatus.draft ∧
    (mkItem (some cexItem) cexFeature
        { title := "New title", pages := ["/p"], content := "new content" }
        "s0" "now" "99").humanEdited = true ∧
    (mkItem (some cexItem) cexFeature
        { title := "New title", pages := ["/p"], content := "new content" }
        "s0" "now" "99").id = "kb-settings-notifications-1" := by
  have h := generateDocs_item_fields (some cexItem) cexFeature
    { title := "New title", pages := ["/p"], content := "new content" } "s0" "now" "99"
  refine ⟨h.1, h.2.1, ?_⟩
  exact h.2.2.2.2.2.2.2.1 cexItem rfl (by decide)

/-! ## C6 — app-router route round trip -/

/-- C6: under the nextjs framework, `src/app/settings/page.tsx` yields the
route `/settings` with no parameters, and `src/app/users/[id]/page.tsx`
yields `/users/:id` with parameter list `["id"]`. -/
theorem next_app_router_routes :
    nextAppRoutes (some "nextjs") "src/app/settings/page.tsx" =
      [{ path := "/settings", sourceFile := "src/app/settings/page.tsx",
         component := none, line := none, params := [] }] ∧
    nextAppRoutes (some "nextjs") "src/app/users/[id]/page.tsx" =
      [{ path := "/users/:id", sourceFile := "src/app/users/[id]/page.tsx",
         component := none, line := none, params := ["id"] }] := by
  exact ⟨by decide, by decide⟩

/-! ## C8 — malformed backend responses fall back instead of failing -/

/-- C8: when the response text does not parse, `generateDoc` returns the
topic display name, an empty page list and the raw text; when it parses but a
field is missing, that field alone falls back the same way; and a successful
response body is never discarded — the returned content is the raw text or a
content field of the parsed response. -/
theorem generateDoc_fallback :
    ∀ (parse : String → Option JsonDoc) (fid text : String),
    (parse text = none →
      generateDocR parse fid text =
        { title := displayName fid, pages := [], content := text }) ∧
    (∀ j, parse text = some j →
      (j.title = none → (generateDocR parse fid text).title = displayName fid) ∧
      (j.pages = none → (generateDocR parse fid text).pages = []) ∧
      (j.content = none → (generateDocR parse fid text).content = text)) ∧
    ((generateDocR parse fid text).content = text ∨
      ∃ j c, parse text = some j ∧ j.content = some c ∧
        (generateDocR parse fid text).content = c) := by
  intro parse fid text
  refine ⟨?_, ?_, ?_⟩
  · intro hp
    simp [generateDocR, hp]
  · intro j hp
    refine ⟨?_, ?_, ?_⟩
    · intro ht
      simp [generateDocR, hp, ht, jsOrStr]
    · intro hpg
      simp [generateDocR, hp, hpg]
    · intro hc
      simp [generateDocR, hp, hc, jsOrStr]
  · cases hp : parse text with
    | none => left; simp [generateDocR, hp]
    | some j =>
      cases hc : j.content with
      | none => left; simp [generateDocR, hp, hc, jsOrStr]
      | some c =>
        by_cases hce : c == ""
        · left
          simp [generateDocR, hp, hc, jsOrStr, hce]
        · right
          exact ⟨j, c, rfl, hc, by simp [generateDocR, hp, hc, jsOrStr, hce]⟩

/-- C8 (witness): a concrete unparseable response falls back to the display
name, no pages and the raw text. -/
theorem generateDoc_fallback_w :
    generateDocR (fun _ => none) "authentication.two-factor-auth" "oops not json" =
      { title := "two factor auth", pages := [], content := "oops not json" } := by
  have h := (generateDoc_fallback (fun _ => none)
    "authentication.two-factor-auth" "oops not json").1 rfl
  have hd : displayName "authentication.two-factor-auth" = "two factor auth" := by decide
  rw [hd] at h
  exact h

/-! ## C9 — a single unparseable file aborts the scan -/

/-- C9: the per-file loop of `scanCodebase` has no try/catch, so the claimed
skip-and-continue behaviour does not hold: with one good file the scan
returns the full code map, but adding one file whose parse throws makes the
whole scan throw instead of skipping that file. -/
theorem scan_aborts_on_parse_failure :
    scanCodebaseR [Except.ok okFileData] = Except.ok
      { routes := okFileData.routes
        components := okFileData.components
        pages := [{ path := "/settings", components := ["SettingsPage"],
                    sourceFiles := ["app/settings/page.tsx"],
                    strings := okFileData.strings, features := [] }]
        strings := okFileData.strings
        features := okFileData.features } ∧
    scanCodebaseR [Except.ok okFileData, Except.error ()] = Except.error () := by
  exact ⟨rfl, rfl⟩

/-! ## C7 — the user-facing string filter -/

/-- C7: the filter rejects `/dashboard`, `onClick`, `ID` and `a`, accepts
`Enable 2FA` and `Change Password`, and in general keeps a string iff its
length is at least 2, it does not match the case-insensitive bare-identifier
shape, does not start with `/` or `http`, contains no arrow or call tokens,
and is not its own upper-casing when longer than 3 characters. -/
theorem isUserFacing_filter :
    (isUserFacing "/dashboard" = false ∧ isUserFacing "onClick" = false ∧
     isUserFacing "ID" = false ∧ isUserFacing "a" = false ∧
     isUserFacing "Enable 2FA" = true ∧ isUserFacing "Change Password" = true) ∧
    ∀ s : String, isUserFacing s = true ↔
      (2 ≤ s.length ∧ identShape s = false ∧
       startsWithStr s "/" = false ∧ startsWithStr s "http" = false ∧
       containsSub s "=>" = false ∧ containsSub s "()" = false ∧
       ¬(s = jsToUpper s ∧ 3 < s.length)) := by
  constructor
  · exact ⟨by decide, by decide, by decide, by decide, by decide, by decide⟩
  intro s
  unfold isUserFacing
  split_ifs with h1 h2 h3 h4 h5
  · simp only [Bool.false_eq_true, false_iff]
    intro hc
    exact absurd hc.1 (by omega)
  · simp only [Bool.false_eq_true, false_iff]
    intro hc
    rw [hc.2.1] at h2
    exact Bool.noConfusion h2
  · simp only [Bool.false_eq_true, false_iff]
    intro hc
    simp only [Bool.or_eq_true] at h3
    rcases h3 with h | h
    · rw [hc.2.2.1] at h
      exact Bool.noConfusion h
    · rw [hc.2.2.2.1] at h
      exact Bool.noConfusion h
  · simp only [Bool.false_eq_true, false_iff]
    intro hc
    simp only [Bool.or_eq_true] at h4
    rcases h4 with h | h
    · rw [hc.2.2.2.2.1] at h
      exact Bool.noConfusion h
    · rw [hc.2.2.2.2.2.1] at h
      exact Bool.noConfusion h
  · simp only [Bool.false_eq_true, false_iff]
    intro hc
    simp only [Bool.and_eq_true, beq_iff_eq, decide_eq_true_eq] at h5
    exact hc.2.2.2.2.2.2 h5
  · simp only [true_iff]
    simp only [Bool.not_eq_true] at h2
    simp only [Bool.or_eq_true, not_or, Bool.not_eq_true] at h3 h4
    simp only [Bool.and_eq_true, beq_iff_eq, decide_eq_true_eq, not_and] at h5
    exact ⟨by omega, h2, h3.1, h3.2, h4.1, h4.2, fun hh => h5 hh.1 hh.2⟩

/-- C7 (witness): one accepted value, obtained from the theorem. -/
theorem isUserFacing_filter_w : isUserFacing "Enable 2FA" = true :=
  isUserFacing_filter.1.2.2.2.2.1

/-! ## C3 — changed-only classification -/

/-- C3: in changed-only mode, with an existing non-pinned item for the topic,
the change test is true exactly when some evidence source file lies outside
the item's recorded `sourceFiles`; when it is false the topic is skipped, and
when it is true the topic goes down the update path (counted in `updated`,
both in dry-run mode and, on a successful generation, with the item replaced
in place).  File removals or content-only edits leave the evidence file set
inside the recorded set and therefore skip. -/
theorem changedOnly_classification :
    ∀ (topic : DetectedFeature) (e : KnowledgeItem),
    (hasNewSourceFile topic e = true ↔
      ∃ ev ∈ topic.evidence, ev.sourceFile ∉ e.sourceFiles) ∧
    (∀ (O : List KnowledgeItem) (opts : GenerateOptions) gen
      (s1 s2 s3 : String) (st : GenState),
      existingByTopic O topic.id = some e → e.pinned = false →
      opts.changedOnly = true →
      (hasNewSourceFile topic e = false →
        stepTopic O opts gen s1 s2 s3 st topic =
          { st with skipped := st.skipped + 1 }) ∧
      (hasNewSourceFile topic e = true → opts.dryRun = true →
        stepTopic O opts gen s1 s2 s3 st topic =
          { st with updated := st.updated + 1 }) ∧
      (hasNewSourceFile topic e = true → opts.dryRun = false → ∀ r idx,
        gen topic = Except.ok r →
        findIndex (fun i => i.id == e.id) st.items = some idx →
        stepTopic O opts gen s1 s2 s3 st topic =
          { st with items := st.items.set idx (mkItem (some e) topic r s1 s2 s3)
                    updated := st.updated + 1 })) := by
  intro topic e
  constructor
  · simp [hasNewSourceFile, List.any_eq_true]
  intro O opts gen s1 s2 s3 st hlook hpin hch
  refine ⟨?_, ?_, ?_⟩
  · intro hnew
    simp [stepTopic, hlook, hpin, hch, hnew]
  · intro hnew hdry
    simp [stepTopic, hlook, hpin, hch, hnew, hdry]
  · intro hnew hdry r idx hgen hfind
    simp [stepTopic, hlook, hpin, hch, hnew, hdry, hgen, hfind]





/-- C3 (witness): concretely, a covered evidence set skips and a new evidence
file updates in place. -/
theorem changedOnly_classification_w :
    stepTopic [unchangedItem] { changedOnly := true, dryRun := false } cexGen
      "s0" "now" "99"
      { items := [unchangedItem], generated := 0, updated := 0, skipped := 0 }
      unchangedFeature =
      { items := [unchangedItem], generated := 0, updated := 0, skipped := 1 } ∧
    stepTopic [cexItem] { changedOnly := true, dryRun := false } cexGen
      "s0" "now" "99"
      { items := [cexItem], generated := 0, updated := 0, skipped := 0 }
      cexFeature =
      { items := [mkItem (some cexItem) cexFeature
                    { title := "New title", pages := ["/p"], content := "new content" }
                    "s0" "now" "99"]
        generated := 0, updated := 1, skipped := 0 } := by
  constructor
  · exact ((changedOnly_classification unchangedFeature unchangedItem).2
      [unchangedItem] { changedOnly := true, dryRun := false } cexGen "s0" "now" "99"
      { items := [unchangedItem], generated := 0, updated := 0, skipped := 0 }
      rfl rfl rfl).1 (by decide)
  · exact ((changedOnly_classification cexFeature cexItem).2
      [cexItem] { changedOnly := true, dryRun := false } cexGen "s0" "now" "99"
      { items := [cexItem], generated := 0, updated := 0, skipped := 0 }
      rfl rfl rfl).2.2 (by decide) rfl
      { title := "New title", pages := ["/p"], content := "new content" } 0 rfl rfl

/-! ## C5 — per-file confidence adjustment and evidence cap -/

/-- Every catalog base confidence is at most 0.95. -/
theorem catalog_confidence_le :
    ∀ p ∈ FEATURE_PATTERNS, p.confidence ≤ 19/20 := by
  intro p hp
  fin_cases hp <;> norm_num

/-- The catalog ids are pairwise distinct. -/
theorem catalog_ids_nodup : (FEATURE_PATTERNS.map (·.id)).Nodup := by
  decide

/-- For bases that stay at most 0.05 below the cap — every catalog base does —
the source's two-step capped bump equals the single-cap formula of the
specification. -/
theorem adjustConfidence_eq_min (base : ℚ) (h : base ≤ 19/20) (n : Nat) :
    adjustConfidence base n =
      min (base + (if 3 ≤ n then (5:ℚ)/100 else 0) +
        (if 5 ≤ n then (5:ℚ)/100 else 0)) 1 := by
  unfold adjustConfidence
  by_cases h3 : 3 ≤ n
  · by_cases h5 : 5 ≤ n
    · simp only [ge_iff_le, if_pos h3, if_pos h5]
      rw [min_eq_left (by linarith : base + 5/100 ≤ 1)]
    · simp only [ge_iff_le, if_pos h3, if_neg h5]
      norm_num
  · have h5 : ¬ 5 ≤ n := by omega
    simp only [ge_iff_le, if_neg h3, if_neg h5]
    rw [add_zero, add_zero, min_eq_left (by linarith)]

/-- C5: for every catalog entry, a file whose evidence collection is empty
contributes no feature with that id, and a non-empty collection contributes a
feature whose confidence is the base plus 0.05 at three local records plus a
further 0.05 at five, capped at 1, and whose emitted evidence is the ten
earliest records. -/
theorem detectFeatures_confidence :
    ∀ (collect : FeaturePattern → List Evidence) (p : FeaturePattern),
    p ∈ FEATURE_PATTERNS →
    (collect p = [] → ∀ g ∈ detectFeatures collect, g.id ≠ p.id) ∧
    (collect p ≠ [] →
      ∃ g ∈ detectFeatures collect, g.id = p.id ∧
        g.evidence = (collect p).take 10 ∧
        g.confidence = min (p.confidence +
          (if 3 ≤ (collect p).length then (5:ℚ)/100 else 0) +
          (if 5 ≤ (collect p).length then (5:ℚ)/100 else 0)) 1) := by
  intro collect p hp
  constructor
  · intro hc g hg hid
    rcases List.mem_filterMap.1 hg with ⟨q, hq, hmap⟩
    by_cases hqe : (collect q).isEmpty
    · simp only [detectFeatures, hqe, if_pos] at hmap
      exact Option.noConfusion hmap
    · simp only [detectFeatures, hqe, if_neg, Bool.false_eq_true,
        not_false_eq_true, Option.some.injEq] at hmap
      have hqid : g.id = q.id := by rw [← hmap]
      have hqp : q = p :=
        List.inj_on_of_nodup_map catalog_ids_nodup hq hp (by rw [← hqid, hid])
      rw [hqp, hc] at hqe
      exact hqe rfl
  · intro hc
    have hne : (collect p).isEmpty = false := by
      rcases h : collect p with _ | ⟨a, l⟩
      · exact absurd h hc
      · simp [h]
    refine ⟨{ id := p.id
              confidence := adjustConfidence p.confidence (collect p).length
              evidence := (collect p).take 10 },
      List.mem_filterMap.2 ⟨p, hp, by simp [detectFeatures, hne]⟩, rfl, rfl, ?_⟩
    exact adjustConfidence_eq_min p.confidence (catalog_confidence_le p hp) _



/-- C5 (witness): the login entry with one collected record is reported with
exactly that evidence. -/
theorem detectFeatures_confidence_w :
    ∃ g ∈ detectFeatures collectW, g.id = "authentication.login-logout" ∧
      g.evidence = [{ pattern := "login", sourceFile := "auth.ts", line := 4 }] := by
  have hp : ({ id := "authentication.login-logout",
               patterns := ["login", "logout", "sign[-_]?in", "sign[-_]?out", "auth"],
               confidence := 9/10 } : FeaturePattern) ∈ FEATURE_PATTERNS :=
    List.mem_cons_self _ _
  have h := (detectFeatures_confidence collectW _ hp).2 (by decide)
  obtain ⟨g, hg, hid, hev, _⟩ := h
  exact ⟨g, hg, hid, hev⟩

/-! ## C4 — cross-file feature merge: evidence union, confidence max -/

theorem foldl_mergeTwo_id (fs : List DetectedFeature) (g : DetectedFeature) :
    (fs.foldl mergeTwo g).id = g.id := by
  induction fs generalizing g with
  | nil => rfl
  | cons f fs ih => exact (ih (mergeTwo g f)).trans rfl

theorem foldl_mergeTwo_evidence (fs : List DetectedFeature) (g : DetectedFeature) :
    (fs.foldl mergeTwo g).evidence = g.evidence ++ (fs.map (·.evidence)).flatten := by
  induction fs generalizing g with
  | nil => simp
  | cons f fs ih =>
    simp only [List.foldl_cons, List.map_cons, List.flatten_cons]
    rw [ih (mergeTwo g f)]
    simp [mergeTwo, List.append_assoc]

theorem foldl_mergeTwo_confidence (fs : List DetectedFeature) (g : DetectedFeature) :
    (fs.foldl mergeTwo g).confidence =
      (fs.map (·.confidence)).foldl max g.confidence := by
  induction fs generalizing g with
  | nil => rfl
  | cons f fs ih =>
    simp only [List.foldl_cons, List.map_cons]
    exact ih (mergeTwo g f)

theorem find?_append_some {α : Type _} {p : α → Bool} {l₁ l₂ : List α} {g : α}
    (h : l₁.find? p = some g) : (l₁ ++ l₂).find? p = some g := by
  induction l₁ with
  | nil => exact Option.noConfusion h
  | cons a l ih =>
    simp only [List.find?] at h ⊢
    by_cases hp : p a
    · simp only [hp] at h ⊢
      exact h
    · simp only [Bool.not_eq_true] at hp
      simp only [hp] at h ⊢
      exact ih h

theorem find?_append_none {α : Type _} {p : α → Bool} {l₁ l₂ : List α}
    (h : l₁.find? p = none) : (l₁ ++ l₂).find? p = l₂.find? p := by
  induction l₁ with
  | nil => rfl
  | cons a l ih =>
    simp only [List.find?] at h ⊢
    by_cases hp : p a
    · simp only [hp] at h
      exact Option.noConfusion h
    · simp only [Bool.not_eq_true] at hp
      simp only [hp] at h ⊢
      exact ih h

/-- The in-place map performed by `insertFeature` on an id hit keeps every id
and rewrites the sought entry through `mergeTwo`. -/
theorem find?_merge_map (i fid : String) (f : DetectedFeature) :
    ∀ acc : List DetectedFeature,
    (acc.map fun g => if g.id == fid then mergeTwo g f else g).find?
        (fun g => g.id == i) =
      (acc.find? (fun g => g.id == i)).map
        fun g => if g.id == fid then mergeTwo g f else g := by
  intro acc
  induction acc with
  | nil => rfl
  | cons a l ih =>
    have hid : ((if a.id == fid then mergeTwo a f else a).id == i) = (a.id == i) := by
      by_cases h : a.id == fid <;> simp [h, mergeTwo]
    simp only [List.map_cons, List.find?]
    rw [hid]
    by_cases h : a.id == i
    · simp [h]
    · simp only [Bool.not_eq_true] at h
      simp only [h]
      exact ih

theorem insertFeature_ids (acc : List DetectedFeature) (f : DetectedFeature) :
    (insertFeature acc f).map (·.id) =
      if acc.any (fun g => g.id == f.id) then acc.map (·.id)
      else acc.map (·.id) ++ [f.id] := by
  unfold insertFeature
  by_cases h : acc.any (fun g => g.id == f.id)
  · simp only [h, if_pos]
    rw [List.map_map]
    apply List.map_congr_left
    intro a _
    simp only [Function.comp_apply]
    split <;> rfl
  · simp only [h, if_neg]
    simp

theorem insertFeature_nodup (acc : List DetectedFeature) (f : DetectedFeature)
    (h : (acc.map (·.id)).Nodup) : ((insertFeature acc f).map (·.id)).Nodup := by
  rw [insertFeature_ids]
  by_cases ha : acc.any (fun g => g.id == f.id)
  · simp only [ha, if_pos]
    exact h
  · simp only [ha, if_neg]
    refine List.Nodup.append h (List.nodup_singleton _) ?_
    intro x hx hx1
    simp only [List.mem_singleton] at hx1
    subst hx1
    rcases List.mem_map.1 hx with ⟨g, hg, hgid⟩
    have : acc.any (fun g => g.id == f.id) = true :=
      List.any_eq_true.2 ⟨g, hg, by simp [hgid]⟩
    simp [this] at ha

/-- The effect of the whole dedup fold on the entry found for a given id,
generalized over the accumulator: the result combines what the accumulator
already held for that id with every later occurrence, in order. -/
theorem find_merge_aux (i : String) :
    ∀ (l acc : List DetectedFeature), (acc.map (·.id)).Nodup →
    (l.foldl insertFeature acc).find? (fun g => g.id == i) =
      (match acc.find? (fun g => g.id == i), l.filter (fun f => f.id == i) with
       | none, [] => none
       | some g, fs => some (fs.foldl mergeTwo g)
       | none, f :: fs => some (fs.foldl mergeTwo f)) := by
  intro l
  induction l with
  | nil =>
    intro acc _
    simp only [List.foldl_nil, List.filter_nil]
    rcases hfa : acc.find? (fun g => g.id == i) with _ | g
    · rw [hfa]
    · rw [hfa]
      rfl
  | cons f0 l ih =>
    intro acc hnd
    simp only [List.foldl_cons]
    rw [ih (insertFeature acc f0) (insertFeature_nodup acc f0 hnd)]
    by_cases hf0 : f0.id == i
    · rw [List.filter_cons_of_pos (by simp [hf0])]
      rcases hfa : acc.find? (fun g => g.id == i) with _ | g
      · have hany : acc.any (fun g => g.id == f0.id) = false := by
          rw [Bool.eq_false_iff]
          intro hco
          rcases List.any_eq_true.1 hco with ⟨g, hg, hgid⟩
          have hgi : (g.id == i) = true := by
            simp only [beq_iff_eq] at hgid hf0 ⊢
            rw [hgid, hf0]
          have := List.find?_eq_none.1 hfa g hg
          simp [hgi] at this
        have hins : insertFeature acc f0 = acc ++ [f0] := by
          unfold insertFeature
          simp [hany]
        rw [hins, find?_append_none hfa, hfa]
        simp [List.find?, hf0]
      · have hg_mem := List.mem_of_find?_eq_some hfa
        have hgi := List.find?_some hfa
        have hany : acc.any (fun x => x.id == f0.id) = true := by
          refine List.any_eq_true.2 ⟨g, hg_mem, ?_⟩
          simp only [beq_iff_eq] at hgi hf0 ⊢
          rw [hgi, hf0]
        have hins : insertFeature acc f0 =
            acc.map fun g => if g.id == f0.id then mergeTwo g f0 else g := by
          unfold insertFeature
          simp [hany]
        have hgf0 : (g.id == f0.id) = true := by
          simp only [beq_iff_eq] at hgi hf0 ⊢
          rw [hgi, hf0]
        have hmap : ((some g).map
            fun x => if x.id == f0.id then mergeTwo x f0 else x)
            = some (mergeTwo g f0) := by
          rw [Option.map_some']
          rw [if_pos hgf0]
        rw [hins, find?_merge_map, hfa, hmap]
        rfl
    · rw [List.filter_cons_of_neg (by simp [hf0])]
      have hfind : (insertFeature acc f0).find? (fun g => g.id == i) =
          acc.find? (fun g => g.id == i) := by
        unfold insertFeature
        by_cases hany : acc.any (fun g => g.id == f0.id)
        · rw [if_pos hany, find?_merge_map]
          rcases hfa : acc.find? (fun g => g.id == i) with _ | g
          · rw [hfa]
            rfl
          · rw [hfa]
            have hgi : g.id = i := by
              have := List.find?_some hfa
              simpa using this
            have hf0' : f0.id ≠ i := by
              simpa using hf0
            have hne : (g.id == f0.id) = false := by
              rw [beq_eq_false_iff_ne, hgi]
              exact fun hcon => hf0' hcon.symm
            rw [Option.map_some']
            rw [if_neg (by simp [hne])]
        · rw [if_neg hany]
          rcases hfa : acc.find? (fun g => g.id == i) with _ | g
          · rw [find?_append_none hfa, hfa]
            simp [List.find?, hf0]
          · rw [find?_append_some hfa, hfa]
      rw [hfind]

theorem foldl_max_init_le (l : List ℚ) (a : ℚ) : a ≤ l.foldl max a := by
  induction l generalizing a with
  | nil => exact le_refl a
  | cons x l ih => exact le_trans (le_max_left a x) (ih (max a x))

theorem foldl_max_le_of_mem (l : List ℚ) :
    ∀ (a x : ℚ), x ∈ l → x ≤ l.foldl max a := by
  induction l with
  | nil =>
    intro a x hx
    cases hx
  | cons y l ih =>
    intro a x hx
    rcases List.mem_cons.1 hx with rfl | hmem
    · exact le_trans (le_max_right a x) (foldl_max_init_le l (max a x))
    · exact ih (max a y) x hmem

theorem foldl_max_cases (l : List ℚ) (a : ℚ) :
    l.foldl max a = a ∨ l.foldl max a ∈ l := by
  induction l generalizing a with
  | nil => exact Or.inl rfl
  | cons x l ih =>
    rcases ih (max a x) with h | h
    · rcases max_choice a x with hm | hm
      · exact Or.inl (by rw [List.foldl_cons, h, hm])
      · exact Or.inr (by rw [List.foldl_cons, h, hm]; exact List.mem_cons_self x l)
    · exact Or.inr (List.mem_cons_of_mem x h)

/-- C4: for every scan and every id, the merged feature list holds no entry
for an id with no per-file occurrence; and when occurrences exist, the single
merged entry concatenates all their evidence lists in order, uncapped, and its
confidence is the maximum (never the sum) of the per-file confidences — an
upper bound of all of them that is attained by one of them. -/
theorem merge_confidence_max :
    ∀ (l : List DetectedFeature) (i : String),
    (l.filter (fun f => f.id == i) = [] →
      (mergeFeatures l).find? (fun g => g.id == i) = none) ∧
    (∀ f fs, l.filter (fun f => f.id == i) = f :: fs →
      (mergeFeatures l).find? (fun g => g.id == i) =
        some { id := f.id
               confidence := (fs.map (·.confidence)).foldl max f.confidence
               evidence := f.evidence ++ (fs.map (·.evidence)).flatten } ∧
      (∀ h ∈ l.filter (fun f => f.id == i),
        h.confidence ≤ (fs.map (·.confidence)).foldl max f.confidence) ∧
      (∃ h ∈ l.filter (fun f => f.id == i),
        h.confidence = (fs.map (·.confidence)).foldl max f.confidence)) := by
  intro l i
  have aux := find_merge_aux i l [] (by simp)
  simp only [List.find?_nil] at aux
  constructor
  · intro hf
    rw [hf] at aux
    exact aux
  · intro f fs hf
    rw [hf] at aux
    refine ⟨?_, ?_, ?_⟩
    · unfold mergeFeatures
      rw [aux]
      show some (fs.foldl mergeTwo f) = _
      congr 1
      have hid := foldl_mergeTwo_id fs f
      have hconf := foldl_mergeTwo_confidence fs f
      have hev := foldl_mergeTwo_evidence fs f
      calc fs.foldl mergeTwo f
          = { id := (fs.foldl mergeTwo f).id
              confidence := (fs.foldl mergeTwo f).confidence
              evidence := (fs.foldl mergeTwo f).evidence } := rfl
        _ = _ := by rw [hid, hconf, hev]
    · intro h hh
      rw [hf] at hh
      rcases List.mem_cons.1 hh with rfl | hmem
      · exact foldl_max_init_le _ _
      · exact foldl_max_le_of_mem _ _ _ (List.mem_map_of_mem (·.confidence) hmem)
    · rcases foldl_max_cases (fs.map (·.confidence)) f.confidence with h | h
      · exact ⟨f, by rw [hf]; exact List.mem_cons_self f fs, h.symm⟩
      · rcases List.mem_map.1 h with ⟨g, hg, hgc⟩
        exact ⟨g, by rw [hf]; exact List.mem_cons_of_mem f hg, hgc⟩





/-- C4 (witness): two files at 0.9 merge to exactly 0.9 with both evidence
records concatenated. -/
theorem merge_confidence_max_w :
    ∃ g, (mergeFeatures [mergeA, mergeB]).find?
        (fun g => g.id == "authentication.login-logout") = some g ∧
      g.confidence = 9/10 ∧ g.evidence = mergeA.evidence ++ mergeB.evidence := by
  have h := (merge_confidence_max [mergeA, mergeB]
    "authentication.login-logout").2 mergeA [mergeB] rfl
  refine ⟨_, h.1, ?_, ?_⟩
  · show ([mergeB].map (·.confidence)).foldl max mergeA.confidence = 9/10
    simp [mergeA, mergeB]
  · show mergeA.evidence ++ ([mergeB].map (·.evidence)).flatten = _
    simp

/-! ## Invariants of the generateDocs loop (used by C2 and C10) -/

theorem existingByTopic_mem {O : List KnowledgeItem} {t : String} {e : KnowledgeItem}
    (h : existingByTopic O t = some e) : e ∈ O ∧ e.topic = t := by
  induction O with
  | nil => exact Option.noConfusion h
  | cons it rest ih =>
    simp only [existingByTopic] at h
    rcases hr : existingByTopic rest t with _ | x
    · rw [hr] at h
      by_cases hit : it.topic == t
      · simp only [hit, if_pos, Option.some.injEq] at h
        subst h
        exact ⟨List.mem_cons_self _ _, by simpa using hit⟩
      · simp only [Bool.not_eq_true] at hit
        simp [hit] at h
    · rw [hr] at h
      have hx : x = e := by
        have h' : (some x : Option KnowledgeItem) = some e := h
        exact Option.some.inj h'
      subst hx
      have := ih hr
      exact ⟨List.mem_cons_of_mem _ this.1, this.2⟩

theorem getq_some_lt {α : Type _} : ∀ (l : List α) (n : Nat) (a : α),
    l.get? n = some a → n < l.length := by
  intro l
  induction l with
  | nil =>
    intro n a h
    cases n <;> exact Option.noConfusion h
  | cons x xs ih =>
    intro n a h
    cases n with
    | zero => simp
    | succ m =>
      have := ih m a h
      simpa using Nat.succ_lt_succ this

theorem getq_append_left {α : Type _} : ∀ (l₁ l₂ : List α) (p : Nat),
    p < l₁.length → (l₁ ++ l₂).get? p = l₁.get? p := by
  intro l₁
  induction l₁ with
  | nil =>
    intro l₂ p hp
    simp at hp
  | cons x xs ih =>
    intro l₂ p hp
    cases p with
    | zero => rfl
    | succ m => exact ih l₂ m (by simpa using Nat.lt_of_succ_lt_succ hp)

theorem getq_set_ne {α : Type _} : ∀ (l : List α) (q p : Nat) (x : α),
    q ≠ p → (l.set q x).get? p = l.get? p := by
  intro l
  induction l with
  | nil =>
    intro q p x _
    cases q <;> rfl
  | cons a as ih =>
    intro q p x hqp
    cases q with
    | zero =>
      cases p with
      | zero => exact absurd rfl hqp
      | succ m => rfl
    | succ qq =>
      cases p with
      | zero => rfl
      | succ m => exact ih qq m x (fun h => hqp (by rw [h]))

theorem set_append_left {α : Type _} : ∀ (l₁ l₂ : List α) (q : Nat) (x : α),
    q < l₁.length → (l₁ ++ l₂).set q x = l₁.set q x ++ l₂ := by
  intro l₁
  induction l₁ with
  | nil =>
    intro l₂ q x hq
    simp at hq
  | cons a as ih =>
    intro l₂ q x hq
    cases q with
    | zero => rfl
    | succ m =>
      show a :: ((as ++ l₂).set m x) = a :: (as.set m x ++ l₂)
      rw [ih l₂ m x (by simpa using Nat.lt_of_succ_lt_succ hq)]

theorem map_set_comm {α β : Type _} (f : α → β) :
    ∀ (l : List α) (q : Nat) (x : α),
    (l.set q x).map f = (l.map f).set q (f x) := by
  intro l
  induction l with
  | nil =>
    intro q x
    cases q <;> rfl
  | cons a as ih =>
    intro q x
    cases q with
    | zero => rfl
    | succ m =>
      simp only [List.map_cons, List.set]
      rw [ih m x]

theorem set_of_getq {α : Type _} : ∀ {l : List α} {q : Nat} {a : α},
    l.get? q = some a → l.set q a = l := by
  intro l
  induction l with
  | nil =>
    intro q a h
    cases q <;> exact Option.noConfusion h
  | cons x xs ih =>
    intro q a h
    cases q with
    | zero =>
      have hx : x = a := by
        have h' : (some x : Option α) = some a := h
        exact Option.some.inj h'
      subst hx
      rfl
    | succ m =>
      simp only [List.set]
      rw [ih (q := m) h]

theorem getq_map {α β : Type _} (f : α → β) : ∀ (l : List α) (n : Nat),
    (l.map f).get? n = (l.get? n).map f := by
  intro l
  induction l with
  | nil =>
    intro n
    cases n <;> rfl
  | cons x xs ih =>
    intro n
    cases n with
    | zero => rfl
    | succ m => exact ih m

theorem mem_set_sub {α : Type _} : ∀ (l : List α) (q : Nat) (x it : α),
    it ∈ l.set q x → it ∈ l ∨ it = x := by
  intro l
  induction l with
  | nil =>
    intro q x it h
    cases q <;> cases h
  | cons a as ih =>
    intro q x it h
    cases q with
    | zero =>
      rcases List.mem_cons.1 h with rfl | hm
      · exact Or.inr rfl
      · exact Or.inl (List.mem_cons_of_mem _ hm)
    | succ m =>
      rcases List.mem_cons.1 h with rfl | hm
      · exact Or.inl (List.mem_cons_self _ _)
      · rcases ih m x it hm with hl | he
        · exact Or.inl (List.mem_cons_of_mem _ hl)
        · exact Or.inr he

theorem findIndex_append_left {p : KnowledgeItem → Bool} :
    ∀ {l₁ : List KnowledgeItem} (l₂ : List KnowledgeItem) {q : Nat},
    findIndex p l₁ = some q → findIndex p (l₁ ++ l₂) = some q := by
  intro l₁
  induction l₁ with
  | nil =>
    intro l₂ q h
    exact Option.noConfusion h
  | cons a as ih =>
    intro l₂ q h
    rw [List.cons_append]
    simp only [findIndex] at h ⊢
    by_cases hp : p a
    · simp only [hp, if_pos] at h ⊢
      exact h
    · simp only [Bool.not_eq_true] at hp
      simp only [hp, Bool.false_eq_true, if_false] at h ⊢
      rcases hr : findIndex p as with _ | m
      · rw [hr] at h
        exact Option.noConfusion h
      · rw [hr] at h
        rw [ih l₂ hr]
        exact h

/-- In a list whose ids agree pointwise with `O`, the JS `findIndex` on an id
of a member of `O` finds exactly that member's (unique) position. -/
theorem findIndex_ids : ∀ (O front : List KnowledgeItem) (e : KnowledgeItem),
    front.map (·.id) = O.map (·.id) → (O.map (·.id)).Nodup → e ∈ O →
    ∃ q, findIndex (fun i => i.id == e.id) front = some q ∧ O.get? q = some e := by
  intro O
  induction O with
  | nil =>
    intro front e _ _ he
    cases he
  | cons b rest ih =>
    intro front e hmap hnd he
    rcases front with _ | ⟨a, front'⟩
    · exact absurd hmap (by simp)
    simp only [List.map_cons, List.cons.injEq] at hmap
    rcases hmap with ⟨haid, hmap'⟩
    simp only [List.map_cons, List.nodup_cons] at hnd
    rcases List.mem_cons.1 he with rfl | hmem
    · refine ⟨0, ?_, rfl⟩
      simp only [findIndex, haid]
      simp
    · have heid : e.id ≠ b.id := by
        intro hco
        exact hnd.1 (hco ▸ List.mem_map_of_mem (·.id) hmem)
      have hpa : (a.id == e.id) = false := by
        rw [haid, beq_eq_false_iff_ne]
        exact fun h => heid h.symm
      rcases ih front' e hmap' hnd.2 hmem with ⟨q, hfi, hget⟩
      refine ⟨q + 1, ?_, by simpa using hget⟩
      simp only [findIndex, hpa, Bool.false_eq_true, if_false, hfi, Option.map_some']



/-- Every non-dry-run loop iteration preserves the good state, increments
exactly one counter, and leaves every original position alone unless its very
item is the lookup target of a non-skipped topic. -/
theorem stepTopic_invariant (O : List KnowledgeItem) (opts : GenerateOptions)
    (gen : DetectedFeature → Except Unit GenResult) (s1 s2 s3 : String)
    (hdr : opts.dryRun = false)
    (hids : (O.map (·.id)).Nodup) (hne : ∀ it ∈ O, it.id ≠ "")
    (st : GenState) (t : DetectedFeature) (hg : GoodState O st) :
    GoodState O (stepTopic O opts gen s1 s2 s3 st t) ∧
    (stepTopic O opts gen s1 s2 s3 st t).generated +
      (stepTopic O opts gen s1 s2 s3 st t).updated +
      (stepTopic O opts gen s1 s2 s3 st t).skipped =
      st.generated + st.updated + st.skipped + 1 ∧
    (∀ p b, O.get? p = some b →
      topicSkipped O opts gen t = true ∨ existingByTopic O t.id ≠ some b →
      (stepTopic O opts gen s1 s2 s3 st t).items.get? p = st.items.get? p) := by
  rcases hlook : existingByTopic O t.id with _ | e
  · rcases hgen : gen t with x | r
    · have hstep : stepTopic O opts gen s1 s2 s3 st t =
          { st with skipped := st.skipped + 1 } := by
        simp [stepTopic, hlook, hdr, hgen]
      rw [hstep]
      exact ⟨hg, by
        show st.generated + st.updated + (st.skipped + 1) =
          st.generated + st.updated + st.skipped + 1
        omega, fun p b _ _ => rfl⟩
    · have hstep : stepTopic O opts gen s1 s2 s3 st t =
          { st with items := st.items ++ [mkItem none t r s1 s2 s3]
                    generated := st.generated + 1 } := by
        simp [stepTopic, hlook, hdr, hgen]
      rw [hstep]
      rcases hg with ⟨front, tail, happ, hfmap, htail⟩
      have hflen : front.length = O.length := by
        have := congrArg List.length hfmap
        simpa using this
      refine ⟨⟨front, tail ++ [mkItem none t r s1 s2 s3], ?_, hfmap, ?_⟩, by
        show st.generated + 1 + st.updated + st.skipped =
          st.generated + st.updated + st.skipped + 1
        omega, ?_⟩
      · rw [happ, List.append_assoc]
      · simp [htail]
      · intro p b hpb _
        have hplt : p < front.length := by
          rw [hflen]
          exact getq_some_lt O p b hpb
        show (st.items ++ [mkItem none t r s1 s2 s3]).get? p = st.items.get? p
        rw [happ, List.append_assoc,
          getq_append_left front _ p hplt, getq_append_left front _ p hplt]
  · have hmem := existingByTopic_mem hlook
    by_cases hpin : e.pinned = true
    · have hstep : stepTopic O opts gen s1 s2 s3 st t =
          { st with skipped := st.skipped + 1 } := by
        simp [stepTopic, hlook, hpin]
      rw [hstep]
      exact ⟨hg, by
        show st.generated + st.updated + (st.skipped + 1) =
          st.generated + st.updated + st.skipped + 1
        omega, fun p b _ _ => rfl⟩
    · have hpin' : e.pinned = false := by
        simpa using hpin
      by_cases hco : (opts.changedOnly && !(hasNewSourceFile t e)) = true
      · have hstep : stepTopic O opts gen s1 s2 s3 st t =
            { st with skipped := st.skipped + 1 } := by
          simp [stepTopic, hlook, hpin', hco]
        rw [hstep]
        exact ⟨hg, by
        show st.generated + st.updated + (st.skipped + 1) =
          st.generated + st.updated + st.skipped + 1
        omega, fun p b _ _ => rfl⟩
      · have hco' : (opts.changedOnly && !(hasNewSourceFile t e)) = false := by
          simpa using hco
        rcases hgen : gen t with x | r
        · have hstep : stepTopic O opts gen s1 s2 s3 st t =
              { st with skipped := st.skipped + 1 } := by
            simp [stepTopic, hlook, hpin', hco', hdr, hgen]
          rw [hstep]
          exact ⟨hg, by
        show st.generated + st.updated + (st.skipped + 1) =
          st.generated + st.updated + st.skipped + 1
        omega, fun p b _ _ => rfl⟩
        · rcases hg with ⟨front, tail, happ, hfmap, htail⟩
          have hflen : front.length = O.length := by
            have := congrArg List.length hfmap
            simpa using this
          rcases findIndex_ids O front e hfmap hids hmem.1 with ⟨q, hfiF, hgetq⟩
          have hfind : findIndex (fun i => i.id == e.id) st.items = some q := by
            rw [happ]
            exact findIndex_append_left tail hfiF
          have hstep : stepTopic O opts gen s1 s2 s3 st t =
              { st with
                items := st.items.set q (mkItem (some e) t r s1 s2 s3)
                updated := st.updated + 1 } := by
            simp [stepTopic, hlook, hpin', hco', hdr, hgen, hfind]
          rw [hstep]
          have hqlt : q < front.length := by
            rw [hflen]
            exact getq_some_lt O q e hgetq
          have hitemid : (mkItem (some e) t r s1 s2 s3).id = e.id := by
            have hene : e.id ≠ "" := hne e hmem.1
            simp only [mkItem]
            rw [if_neg (by simp [hene])]
          refine ⟨⟨front.set q (mkItem (some e) t r s1 s2 s3), tail, ?_, ?_, htail⟩, by
            show st.generated + (st.updated + 1) + st.skipped =
              st.generated + st.updated + st.skipped + 1
            omega, ?_⟩
          · rw [happ, set_append_left front tail q _ hqlt]
          · rw [map_set_comm, hitemid, hfmap]
            apply set_of_getq
            rw [getq_map, hgetq]
            rfl
          · intro p b hpb hdisj
            have hsk : topicSkipped O opts gen t = false := by
              simp [topicSkipped, hlook, hpin', hco', hgen]
            have hneq : e ≠ b := by
              intro hco2
              rcases hdisj with hl | hr2
              · rw [hsk] at hl
                exact absurd hl (by simp)
              · exact hr2 (by rw [hco2])
            have hpq : q ≠ p := by
              intro hco2
              subst hco2
              rw [hpb] at hgetq
              exact hneq (Option.some.inj hgetq.symm)
            show (st.items.set q (mkItem (some e) t r s1 s2 s3)).get? p = st.items.get? p
            exact getq_set_ne st.items q p _ hpq

/-- The whole non-dry-run loop: good state preserved, one counter increment
per topic, and original positions whose item is only ever a skipped lookup
target stay untouched. -/
theorem foldl_invariant (O : List KnowledgeItem) (opts : GenerateOptions)
    (gen : DetectedFeature → Except Unit GenResult) (s1 s2 s3 : String)
    (hdr : opts.dryRun = false)
    (hids : (O.map (·.id)).Nodup) (hne : ∀ it ∈ O, it.id ≠ "") :
    ∀ (ts : List DetectedFeature) (st : GenState), GoodState O st →
    GoodState O (ts.foldl (stepTopic O opts gen s1 s2 s3) st) ∧
    (ts.foldl (stepTopic O opts gen s1 s2 s3) st).generated +
      (ts.foldl (stepTopic O opts gen s1 s2 s3) st).updated +
      (ts.foldl (stepTopic O opts gen s1 s2 s3) st).skipped =
      st.generated + st.updated + st.skipped + ts.length ∧
    (∀ p b, O.get? p = some b →
      (∀ f ∈ ts, existingByTopic O f.id = some b → topicSkipped O opts gen f = true) →
      (ts.foldl (stepTopic O opts gen s1 s2 s3) st).items.get? p = st.items.get? p) := by
  intro ts
  induction ts with
  | nil =>
    intro st hg
    exact ⟨hg, by simp, fun p b _ _ => rfl⟩
  | cons t ts ih =>
    intro st hg
    have hstep := stepTopic_invariant O opts gen s1 s2 s3 hdr hids hne st t hg
    have hrec := ih (stepTopic O opts gen s1 s2 s3 st t) hstep.1
    refine ⟨hrec.1, ?_, ?_⟩
    · simp only [List.foldl_cons]
      rw [hrec.2.1, hstep.2.1]
      simp
      omega
    · intro p b hpb hall
      simp only [List.foldl_cons]
      have h2 := hrec.2.2 p b hpb (fun f hf => hall f (List.mem_cons_of_mem _ hf))
      have h1 := hstep.2.2 p b hpb (by
        by_cases hl : existingByTopic O t.id = some b
        · exact Or.inl (hall t (List.mem_cons_self _ _) hl)
        · exact Or.inr hl)
      exact h2.trans h1

/-- In dry-run mode the loop never touches the items list. -/
theorem foldl_dryRun_items (O : List KnowledgeItem) (opts : GenerateOptions)
    (gen : DetectedFeature → Except Unit GenResult) (s1 s2 s3 : String)
    (hdr : opts.dryRun = true) :
    ∀ (ts : List DetectedFeature) (st : GenState),
    (ts.foldl (stepTopic O opts gen s1 s2 s3) st).items = st.items := by
  intro ts
  induction ts with
  | nil =>
    intro st
    rfl
  | cons t ts ih =>
    intro st
    simp only [List.foldl_cons]
    rw [ih]
    rcases hlook : existingByTopic O t.id with _ | e
    · simp [stepTopic, hlook, hdr]
    · by_cases hpin : e.pinned = true
      · simp [stepTopic, hlook, hpin]
      · have hpin' : e.pinned = false := by
          simpa using hpin
        by_cases hco : (opts.changedOnly && !(hasNewSourceFile t e)) = true
        · simp [stepTopic, hlook, hpin', hco]
        · have hco' : (opts.changedOnly && !(hasNewSourceFile t e)) = false := by
            simpa using hco
          simp [stepTopic, hlook, hpin', hco', hdr]

/-- No loop iteration ever writes an item with `pinned = true`: every item of
the running list is an original one or has `pinned = false`. -/
theorem foldl_pinned_false (O : List KnowledgeItem) (opts : GenerateOptions)
    (gen : DetectedFeature → Except Unit GenResult) (s1 s2 s3 : String) :
    ∀ (ts : List DetectedFeature) (st : GenState),
    (∀ it ∈ st.items, it ∈ O ∨ it.pinned = false) →
    ∀ it ∈ (ts.foldl (stepTopic O opts gen s1 s2 s3) st).items,
      it ∈ O ∨ it.pinned = false := by
  intro ts
  induction ts with
  | nil =>
    intro st hst
    exact hst
  | cons t ts ih =>
    intro st hst
    simp only [List.foldl_cons]
    apply ih
    intro it hit
    rcases hlook : existingByTopic O t.id with _ | e
    · rcases hgen : gen t with x | r
      · by_cases hdr : opts.dryRun = true
        · rw [show stepTopic O opts gen s1 s2 s3 st t =
              { st with generated := st.generated + 1 } from by
            simp [stepTopic, hlook, hdr]] at hit
          exact hst it hit
        · have hdr' : opts.dryRun = false := by simpa using hdr
          rw [show stepTopic O opts gen s1 s2 s3 st t =
              { st with skipped := st.skipped + 1 } from by
            simp [stepTopic, hlook, hdr', hgen]] at hit
          exact hst it hit
      · by_cases hdr : opts.dryRun = true
        · rw [show stepTopic O opts gen s1 s2 s3 st t =
              { st with generated := st.generated + 1 } from by
            simp [stepTopic, hlook, hdr]] at hit
          exact hst it hit
        · have hdr' : opts.dryRun = false := by simpa using hdr
          rw [show stepTopic O opts gen s1 s2 s3 st t =
              { st with items := st.items ++ [mkItem none t r s1 s2 s3]
                        generated := st.generated + 1 } from by
            simp [stepTopic, hlook, hdr', hgen]] at hit
          rcases List.mem_append.1 hit with hold | hnew
          · exact hst it hold
          · rcases List.mem_singleton.1 hnew with rfl
            exact Or.inr rfl
    · by_cases hpin : e.pinned = true
      · rw [show stepTopic O opts gen s1 s2 s3 st t =
            { st with skipped := st.skipped + 1 } from by
          simp [stepTopic, hlook, hpin]] at hit
        exact hst it hit
      · have hpin' : e.pinned = false := by simpa using hpin
        by_cases hco : (opts.changedOnly && !(hasNewSourceFile t e)) = true
        · rw [show stepTopic O opts gen s1 s2 s3 st t =
              { st with skipped := st.skipped + 1 } from by
            simp [stepTopic, hlook, hpin', hco]] at hit
          exact hst it hit
        · have hco' : (opts.changedOnly && !(hasNewSourceFile t e)) = false := by
            simpa using hco
          by_cases hdr : opts.dryRun = true
          · rw [show stepTopic O opts gen s1 s2 s3 st t =
                { st with updated := st.updated + 1 } from by
              simp [stepTopic, hlook, hpin', hco', hdr]] at hit
            exact hst it hit
          · have hdr' : opts.dryRun = false := by simpa using hdr
            rcases hgen : gen t with x | r
            · rw [show stepTopic O opts gen s1 s2 s3 st t =
                  { st with skipped := st.skipped + 1 } from by
                simp [stepTopic, hlook, hpin', hco', hdr', hgen]] at hit
              exact hst it hit
            · rcases hfind : findIndex (fun i => i.id == e.id) st.items with _ | idx
              · rw [show stepTopic O opts gen s1 s2 s3 st t = st from by
                  simp [stepTopic, hlook, hpin', hco', hdr', hgen, hfind]] at hit
                exact hst it hit
              · rw [show stepTopic O opts gen s1 s2 s3 st t =
                    { st with
                      items := st.items.set idx (mkItem (some e) t r s1 s2 s3)
                      updated := st.updated + 1 } from by
                  simp [stepTopic, hlook, hpin', hco', hdr', hgen, hfind]] at hit
                rcases mem_set_sub st.items idx _ it hit with hold | hnew
                · exact hst it hold
                · rw [hnew]
                  exact Or.inr rfl

/-! ## C10 — frame property and counter accounting of generateDocs -/

/-- C10: in a real (non-dry-run) run over a knowledge base with distinct,
non-empty item ids, `generateDocs` returns the original list with updates
substituted in place — same length plus the created items, the first
positions keeping the original ids — every original item all of whose
matching allow-listed topics are classified skip is returned unchanged at its
original position, created items are appended at the end, and
generated + updated + skipped equals the number of allow-listed detected
features. -/
theorem generateDocs_frame :
    ∀ (opts : GenerateOptions) (gen : DetectedFeature → Except Unit GenResult)
      (s1 s2 s3 : String) (features : List DetectedFeature)
      (configTopics : List String) (O : List KnowledgeItem),
    opts.dryRun = false → (O.map (·.id)).Nodup → (∀ it ∈ O, it.id ≠ "") →
    (generateDocsR opts gen s1 s2 s3 features configTopics O).items.length =
      O.length + (generateDocsR opts gen s1 s2 s3 features configTopics O).generated ∧
    ((generateDocsR opts gen s1 s2 s3 features configTopics O).items.take
        O.length).map (·.id) = O.map (·.id) ∧
    (∀ p b, O.get? p = some b →
      (∀ f ∈ getTopicsFromFeatures features configTopics,
        f.id = b.topic → topicSkipped O opts gen f = true) →
      (generateDocsR opts gen s1 s2 s3 features configTopics O).items.get? p = some b) ∧
    (generateDocsR opts gen s1 s2 s3 features configTopics O).generated +
      (generateDocsR opts gen s1 s2 s3 features configTopics O).updated +
      (generateDocsR opts gen s1 s2 s3 features configTopics O).skipped =
      (getTopicsFromFeatures features configTopics).length := by
  intro opts gen s1 s2 s3 features configTopics O hdr hids hne
  have h := foldl_invariant O opts gen s1 s2 s3 hdr hids hne
    (getTopicsFromFeatures features configTopics)
    { items := O, generated := 0, updated := 0, skipped := 0 }
    ⟨O, [], by simp, rfl, rfl⟩
  rcases h with ⟨hgood, hcount, hframe⟩
  rcases hgood with ⟨front, tail, happ, hfmap, htail⟩
  have hflen : front.length = O.length := by
    have := congrArg List.length hfmap
    simpa using this
  refine ⟨?_, ?_, ?_, ?_⟩
  · show ((getTopicsFromFeatures features configTopics).foldl
        (stepTopic O opts gen s1 s2 s3)
        { items := O, generated := 0, updated := 0, skipped := 0 }).items.length =
      O.length + ((getTopicsFromFeatures features configTopics).foldl
        (stepTopic O opts gen s1 s2 s3)
        { items := O, generated := 0, updated := 0, skipped := 0 }).generated
    rw [happ]
    simp only [List.length_append]
    rw [hflen, htail]
  · show (((getTopicsFromFeatures features configTopics).foldl
        (stepTopic O opts gen s1 s2 s3)
        { items := O, generated := 0, updated := 0, skipped := 0 }).items.take
        O.length).map (·.id) = O.map (·.id)
    rw [happ, ← hflen, List.take_left]
    exact hfmap
  · intro p b hpb hskip
    show ((getTopicsFromFeatures features configTopics).foldl
        (stepTopic O opts gen s1 s2 s3)
        { items := O, generated := 0, updated := 0, skipped := 0 }).items.get? p = some b
    have hfr := hframe p b hpb (by
      intro f hf hlookup
      exact hskip f hf (existingByTopic_mem hlookup).2.symm)
    rw [hfr]
    exact hpb
  · show ((getTopicsFromFeatures features configTopics).foldl
        (stepTopic O opts gen s1 s2 s3)
        { items := O, generated := 0, updated := 0, skipped := 0 }).generated +
      ((getTopicsFromFeatures features configTopics).foldl
        (stepTopic O opts gen s1 s2 s3)
        { items := O, generated := 0, updated := 0, skipped := 0 }).updated +
      ((getTopicsFromFeatures features configTopics).foldl
        (stepTopic O opts gen s1 s2 s3)
        { items := O, generated := 0, updated := 0, skipped := 0 }).skipped =
      (getTopicsFromFeatures features configTopics).length
    rw [hcount]
    show 0 + 0 + 0 + (getTopicsFromFeatures features configTopics).length = _
    omega

/-- C10 (witness): a concrete run over two items with one allow-listed update
topic leaves the unrelated item untouched at its position and accounts one
counter increment. -/
theorem generateDocs_frame_w :
    (generateDocsR { changedOnly := false, dryRun := false } cexGen "s0" "now" "99"
        [cexFeature] ["settings"] [cexItem, unchangedItem]).items.get? 1 =
      some unchangedItem ∧
    (generateDocsR { changedOnly := false, dryRun := false } cexGen "s0" "now" "99"
        [cexFeature] ["settings"] [cexItem, unchangedItem]).generated +
      (generateDocsR { changedOnly := false, dryRun := false } cexGen "s0" "now" "99"
        [cexFeature] ["settings"] [cexItem, unchangedItem]).updated +
      (generateDocsR { changedOnly := false, dryRun := false } cexGen "s0" "now" "99"
        [cexFeature] ["settings"] [cexItem, unchangedItem]).skipped = 1 := by
  have h := generateDocs_frame { changedOnly := false, dryRun := false } cexGen
    "s0" "now" "99" [cexFeature] ["settings"] [cexItem, unchangedItem]
    rfl (by decide) (by decide)
  refine ⟨?_, ?_⟩
  · apply h.2.2.1 1 unchangedItem rfl
    intro f hf hid
    have hall : getTopicsFromFeatures [cexFeature] ["settings"] = [cexFeature] := rfl
    rw [hall] at hf
    rcases List.mem_singleton.1 hf with rfl
    exact absurd hid (by decide)
  · exact h.2.2.2

/-! ## C2 — pinned items are never regenerated and pinning is never written -/

/-- C2: a topic whose existing item is pinned is always counted skipped with
the state otherwise untouched; under distinct non-empty ids every pinned item
comes back unchanged at its original position in the returned list whatever
the detected features and generations are; and every returned item is an
original one or carries `pinned = false` — the generation path never writes a
pinned item. -/
theorem pinned_never_regenerated :
    ∀ (O : List KnowledgeItem) (opts : GenerateOptions)
      (gen : DetectedFeature → Except Unit GenResult) (s1 s2 s3 : String),
    (∀ (t : DetectedFeature) (e : KnowledgeItem) (st : GenState),
      existingByTopic O t.id = some e → e.pinned = true →
      stepTopic O opts gen s1 s2 s3 st t = { st with skipped := st.skipped + 1 }) ∧
    (∀ (features : List DetectedFeature) (configTopics : List String),
      (O.map (·.id)).Nodup → (∀ it ∈ O, it.id ≠ "") →
      ∀ p b, O.get? p = some b → b.pinned = true →
      (generateDocsR opts gen s1 s2 s3 features configTopics O).items.get? p = some b) ∧
    (∀ (features : List DetectedFeature) (configTopics : List String) it,
      it ∈ (generateDocsR opts gen s1 s2 s3 features configTopics O).items →
      it ∈ O ∨ it.pinned = false) := by
  intro O opts gen s1 s2 s3
  refine ⟨?_, ?_, ?_⟩
  · intro t e st hlook hpin
    simp [stepTopic, hlook, hpin]
  · intro features configTopics hids hne p b hpb hbp
    rcases hdr : opts.dryRun with _ | _
    · have h := foldl_invariant O opts gen s1 s2 s3 hdr hids hne
        (getTopicsFromFeatures features configTopics)
        { items := O, generated := 0, updated := 0, skipped := 0 }
        ⟨O, [], by simp, rfl, rfl⟩
      have hfr := h.2.2 p b hpb (by
        intro f hf hlookup
        simp [topicSkipped, hlookup, hbp])
      show ((getTopicsFromFeatures features configTopics).foldl
          (stepTopic O opts gen s1 s2 s3)
          { items := O, generated := 0, updated := 0, skipped := 0 }).items.get? p =
        some b
      rw [hfr]
      exact hpb
    · show ((getTopicsFromFeatures features configTopics).foldl
          (stepTopic O opts gen s1 s2 s3)
          { items := O, generated := 0, updated := 0, skipped := 0 }).items.get? p =
        some b
      rw [foldl_dryRun_items O opts gen s1 s2 s3 hdr]
      exact hpb
  · intro features configTopics it hit
    have h := foldl_pinned_false O opts gen s1 s2 s3
      (getTopicsFromFeatures features configTopics)
      { items := O, generated := 0, updated := 0, skipped := 0 }
      (fun x hx => Or.inl hx)
    exact h it hit





/-- C2 (witness): the pinned topic's iteration concretely counts one skip and
changes nothing else. -/
theorem pinned_never_regenerated_w :
    stepTopic [pinnedItem] { changedOnly := false, dryRun := false } cexGen
      "s0" "now" "99"
      { items := [pinnedItem], generated := 0, updated := 0, skipped := 0 }
      pinnedFeature =
      { items := [pinnedItem], generated := 0, updated := 0, skipped := 1 } :=
  (pinned_never_regenerated [pinnedItem] { changedOnly := false, dryRun := false }
    cexGen "s0" "now" "99").1 pinnedFeature pinnedItem
    { items := [pinnedItem], generated := 0, updated := 0, skipped := 0 } rfl rfl

end Kodex
